import Mathlib

/-!
Verification of the metrics command-output extraction pipeline
(internal/metrics/cmd.go of ubuntu-report).

The mappers consume the output of external commands.  In this development a
command's standard output, after it has been read, is a plain value; the
stream plus process-failure channel of runCmd together with the line filter
and JSON parser (which are not under src/) are represented by the
Except-typed inputs of the mapper functions.  All text is ASCII in the
inputs of interest, so Go's byte indices coincide with character indices
and strings are modelled as lists of characters.
-/

/-- Go regexp character class backslash-s, that is tab, newline, form feed,
carriage return and space. -/
def isSpaceRe (c : Char) : Bool :=
  c == ' ' || c == '\t' || c == '\n' || c == '\x0c' || c == '\r'

/-- The whitespace test of Go strings.Fields (unicode.IsSpace restricted to
ASCII, which is all the inputs contain). -/
def isSpaceFields (c : Char) : Bool :=
  c == ' ' || c == '\t' || c == '\n' || c == '\x0b' || c == '\x0c' || c == '\r'

/-- The character class [a-zA-Z0-9] of the GPU pattern. -/
def isAlnumGo (c : Char) : Bool :=
  c.isAlpha || c.isDigit

/-- Index of the first occurrence of needle in the haystack, as
bytes.Index / strings.Index compute it on ASCII data. -/
def subIdx (needle : List Char) : List Char → Option Nat
  | [] => if needle.isEmpty then some 0 else none
  | c :: cs =>
    if needle.isPrefixOf (c :: cs) then some 0
    else (subIdx needle cs).map (· + 1)

/-- All start indices of occurrences of needle, in increasing order
(used to realise greedy leftmost matching of a literal). -/
def subIdxAll (needle : List Char) : List Char → List Nat
  | [] => []
  | c :: cs =>
    (if needle.isPrefixOf (c :: cs) then [0] else []) ++
      (subIdxAll needle cs).map (· + 1)

/-- strings.Index s pat is nonnegative. -/
def strContains (s pat : String) : Bool :=
  (subIdx pat.data s.data).isSome

/-- strings.HasPrefix. -/
def strStarts (s p : String) : Bool :=
  p.data.isPrefixOf s.data

/-- strings.Replace (s, " ", "", -1): delete every space. -/
def stripSpaces (s : String) : String :=
  String.mk (s.data.filter (fun c => !(c == ' ')))

/-- Accumulator-based splitting of a character list into maximal runs of
non-whitespace characters. -/
def goFieldsAux : List Char → List Char → List (List Char)
  | [], acc => if acc.isEmpty then [] else [acc]
  | c :: cs, acc =>
    if isSpaceFields c then
      if acc.isEmpty then goFieldsAux cs [] else acc :: goFieldsAux cs []
    else goFieldsAux cs (acc ++ [c])

/-- strings.Fields: the whitespace-separated fields of a string. -/
def goFields (s : String) : List String :=
  (goFieldsAux s.data []).map String.mk

/-- strconv.Atoi: an optional sign followed by at least one digit; anything
else is an error.  (Machine overflow is irrelevant at the sizes the claims
use and is not modelled.) -/
def goAtoi (s : String) : Option Int :=
  match s.data with
  | [] => none
  | c :: cs =>
    let signed : Bool × List Char :=
      if c == '-' then (true, cs) else if c == '+' then (false, cs) else (false, c :: cs)
    if signed.2.isEmpty || !(signed.2.all Char.isDigit) then none
    else
      let n : Nat := signed.2.foldl (fun a d => a * 10 + (d.toNat - 48)) 0
      some (if signed.1 then -(n : Int) else (n : Int))

/-- Splitting a byte buffer into the tokens that bufio.Scanner with
ScanLines produces: split on newline, keep interior empties. -/
def splitNl : List Char → List (List Char)
  | [] => [[]]
  | c :: cs =>
    if c == '\n' then [] :: splitNl cs
    else
      match splitNl cs with
      | p :: ps => (c :: p) :: ps
      | [] => [[c]]

/-- The lines bufio.Scanner yields for a buffer: split on newline, drop a
final empty token, and strip one trailing carriage return per line. -/
def goLines (s : String) : List String :=
  let parts := splitNl s.data
  let parts := if parts.getLast? = some [] then parts.dropLast else parts
  parts.map (fun p => String.mk (if p.getLast? = some '\r' then p.dropLast else p))

/-!  ## GPU mapper  -/

structure gpuInfo where
  Vendor : String := ""
  Model : String := ""
deriving DecidableEq

/-- The literal " 0300: " of the GPU filter pattern. -/
def gpuLit : List Char := (" 0300: ").data

/-- The literal " (rev " of the optional revision group. -/
def revLit : List Char := (" (rev ").data

/-- Matching attempt of the GPU pattern tail at the suffix following one
occurrence of " 0300: ": the capture group [a-zA-Z0-9]+:[a-zA-Z0-9]+
followed by an optional " (rev ...)" group anchored at the end of the
line. -/
def gpuTryAt (s : List Char) : Option (List Char) :=
  let v := s.takeWhile isAlnumGo
  match s.drop v.length with
  | ':' :: rest =>
    let m := rest.takeWhile isAlnumGo
    let rem := rest.drop m.length
    if v.isEmpty || m.isEmpty then none
    else if rem.isEmpty then some (v ++ ':' :: m)
    else if revLit.isPrefixOf rem ∧ rem.getLast? = some ')' ∧ 7 ≤ rem.length then
      some (v ++ ':' :: m)
    else none
  | _ => none

/-- The first defined value of a list of optional values. -/
def firstSome {α : Type} : List (Option α) → Option α
  | [] => none
  | some x :: _ => some x
  | none :: os => firstSome os

/-- The capture a line contributes under the GPU filter pattern
(a regular expression written in cmd.go): the greedy leading .* makes the
engine try the occurrences of " 0300: " from the rightmost one. -/
def gpuCapture (line : String) : Option String :=
  (firstSome ((subIdxAll gpuLit line.data).reverse.map
      (fun i => gpuTryAt (line.data.drop (i + gpuLit.length))))).map String.mk

/-- strings.SplitN (s, ":", 2): one part when no colon occurs, otherwise
the text before the first colon and everything after it. -/
def goSplitN2Colon (s : String) : List String :=
  match subIdx [':'] s.data with
  | none => [s]
  | some i => [String.mk (s.data.take i), String.mk (s.data.drop (i + 1))]

/-- The loop of getGPU over the filtered results: split each on the first
colon; a result without exactly two parts is dropped (logged), the rest
become vendor/model records. -/
def gpuRecords : List String → List gpuInfo
  | [] => []
  | s :: rest =>
    match goSplitN2Colon s with
    | [v, m] => { Vendor := v, Model := m } :: gpuRecords rest
    | _ => gpuRecords rest

/-- getGPU of cmd.go with the command stream and the filterAll engine
(not under src/) abstracted into the Except argument: an error from the
stream or filter yields no records, otherwise the loop runs over the
per-line captures of the GPU pattern. -/
def getGPU : Except String (List String) → List gpuInfo
  | .error _ => []
  | .ok ls => gpuRecords (ls.filterMap gpuCapture)

/-- The per-result record of the claim: split on the first colon, keep
exactly-two-part splits. -/
def splitVendorModel (s : String) : Option gpuInfo :=
  match goSplitN2Colon s with
  | [v, m] => some { Vendor := v, Model := m }
  | _ => none

/-!  ## CPU mapper  -/

/-- One node of the lscpu JSON tree: a field label, its data, and child
entries (struct LscpuEntry of the repository). -/
inductive LscpuEntry where
  | mk : String → String → List LscpuEntry → LscpuEntry

def LscpuEntry.Field : LscpuEntry → String
  | .mk f _ _ => f

def LscpuEntry.Data : LscpuEntry → String
  | .mk _ d _ => d

def LscpuEntry.Children : LscpuEntry → List LscpuEntry
  | .mk _ _ ch => ch

/-- The top-level shape lscpu -J emits: a single list of entries. -/
structure Lscpu where
  Lscpu : List LscpuEntry

/-- The flat CPU record populated by the walk (struct cpuInfo). -/
structure cpuInfo where
  OpMode : String := ""
  CPUs : String := ""
  Threads : String := ""
  Cores : String := ""
  Sockets : String := ""
  Vendor : String := ""
  Family : String := ""
  Model : String := ""
  Stepping : String := ""
  Name : String := ""
  Virtualization : String := ""
  Hypervisor : String := ""
  VirtualizationType : String := ""
deriving DecidableEq

/-- The switch statement of populateCpuInfo: assign the matching field of
the record, leave it unchanged on an unknown label. -/
def applyField (c : cpuInfo) (f d : String) : cpuInfo :=
  match f with
  | "CPU op-mode(s):" => { c with OpMode := d }
  | "CPU(s):" => { c with CPUs := d }
  | "Thread(s) per core:" => { c with Threads := d }
  | "Core(s) per socket:" => { c with Cores := d }
  | "Socket(s):" => { c with Sockets := d }
  | "Vendor ID:" => { c with Vendor := d }
  | "CPU family:" => { c with Family := d }
  | "Model:" => { c with Model := d }
  | "Stepping:" => { c with Stepping := d }
  | "Model name:" => { c with Name := d }
  | "Virtualization:" => { c with Virtualization := d }
  | "Hypervisor vendor:" => { c with Hypervisor := d }
  | "Virtualization type:" => { c with VirtualizationType := d }
  | _ => c

mutual

/-- populateCpuInfo of cmd.go: iterate over the entries; for each one,
assign its field (the switch) and then, when it has children, recurse into
them before moving to the next sibling.  The Go code threads one record by
pointer; here the record is threaded explicitly. -/
def populateCpuInfo : List LscpuEntry → cpuInfo → cpuInfo
  | [], c => c
  | e :: es, c => populateCpuInfo es (populateOne e c)

/-- The body of the loop of populateCpuInfo for one entry. -/
def populateOne : LscpuEntry → cpuInfo → cpuInfo
  | .mk f d ch, c =>
    let c2 := applyField c f d
    if ch.length > 0 then populateCpuInfo ch c2 else c2

end

/-- getCPU of cmd.go with runCmd and parseJSON abstracted into the
argument.  Modelled from the spec: parseJSON (not under src/) decodes the
stream into the pre-declared Lscpu shape or returns a decode error, and on
success Go hands back the same pointer it filled, so the type assertion in
getCPU cannot fail; both failure modes therefore sit in the error branch,
on which getCPU logs and returns the zero-value record. -/
def getCPU : Except String Lscpu → cpuInfo
  | .error _ => {}
  | .ok l => populateCpuInfo l.Lscpu {}

mutual

/-- The depth-first visit order of the walk: each entry contributes its
own (label, data) pair before the pairs of its children, children before
later siblings. -/
def dfsFlatten : List LscpuEntry → List (String × String)
  | [] => []
  | e :: es => dfsEntry e ++ dfsFlatten es

def dfsEntry : LscpuEntry → List (String × String)
  | .mk f d ch => (f, d) :: dfsFlatten ch

end

/-- One assignment step on a (label, data) pair. -/
def applyPair (c : cpuInfo) (p : String × String) : cpuInfo :=
  applyField c p.1 p.2

/-- The data of the last pair carrying the given label, if any. -/
def lastLabel (lbl : String) : List (String × String) → Option String
  | [] => none
  | p :: ps =>
    match lastLabel lbl ps with
    | some s => some s
    | none => if p.1 = lbl then some p.2 else none

mutual

theorem populate_eq_foldl (es : List LscpuEntry) (c : cpuInfo) :
    populateCpuInfo es c = List.foldl applyPair c (dfsFlatten es) := by
  cases es with
  | nil => rfl
  | cons e es =>
    rw [populateCpuInfo, dfsFlatten, List.foldl_append, ← populateOne_eq e c,
      populate_eq_foldl es]

theorem populateOne_eq (e : LscpuEntry) (c : cpuInfo) :
    populateOne e c = List.foldl applyPair c (dfsEntry e) := by
  cases e with
  | mk f d ch =>
    rw [populateOne, dfsEntry]
    show (if ch.length > 0 then populateCpuInfo ch (applyField c f d)
          else applyField c f d) = _
    rw [List.foldl_cons]
    cases ch with
    | nil => simp [dfsFlatten, applyPair]
    | cons e2 ch2 =>
      simp only [List.length_cons, Nat.succ_sub_one, if_pos (Nat.succ_pos _)]
      exact populate_eq_foldl (e2 :: ch2) (applyPair c (f, d))

end

/-- Generic last-write-wins property of the assignment fold: a field whose
setter behaves like an overwrite on one label ends up holding the data of
the last pair with that label, or its initial value. -/
theorem foldl_lastLabel (get : cpuInfo → String) (lbl : String)
    (hset : ∀ c f d, get (applyField c f d) = if f = lbl then d else get c) :
    ∀ ps c, get (List.foldl applyPair c ps) = (lastLabel lbl ps).getD (get c) := by
  intro ps
  induction ps with
  | nil => intro c; rfl
  | cons p ps ih =>
    intro c
    rw [List.foldl_cons, ih, lastLabel]
    cases h : lastLabel lbl ps with
    | some s => simp
    | none =>
      simp only [Option.getD_none]
      rw [applyPair, hset]
      split <;> simp

theorem hset_OpMode : ∀ c f d, (applyField c f d).OpMode = if f = "CPU op-mode(s):" then d else c.OpMode := by
  intro c f d; simp only [applyField]; split <;> simp_all

theorem hset_CPUs : ∀ c f d, (applyField c f d).CPUs = if f = "CPU(s):" then d else c.CPUs := by
  intro c f d; simp only [applyField]; split <;> simp_all

theorem hset_Threads : ∀ c f d, (applyField c f d).Threads = if f = "Thread(s) per core:" then d else c.Threads := by
  intro c f d; simp only [applyField]; split <;> simp_all

theorem hset_Cores : ∀ c f d, (applyField c f d).Cores = if f = "Core(s) per socket:" then d else c.Cores := by
  intro c f d; simp only [applyField]; split <;> simp_all

theorem hset_Sockets : ∀ c f d, (applyField c f d).Sockets = if f = "Socket(s):" then d else c.Sockets := by
  intro c f d; simp only [applyField]; split <;> simp_all

theorem hset_Vendor : ∀ c f d, (applyField c f d).Vendor = if f = "Vendor ID:" then d else c.Vendor := by
  intro c f d; simp only [applyField]; split <;> simp_all

theorem hset_Family : ∀ c f d, (applyField c f d).Family = if f = "CPU family:" then d else c.Family := by
  intro c f d; simp only [applyField]; split <;> simp_all

theorem hset_Model : ∀ c f d, (applyField c f d).Model = if f = "Model:" then d else c.Model := by
  intro c f d; simp only [applyField]; split <;> simp_all

theorem hset_Stepping : ∀ c f d, (applyField c f d).Stepping = if f = "Stepping:" then d else c.Stepping := by
  intro c f d; simp only [applyField]; split <;> simp_all

theorem hset_Name : ∀ c f d, (applyField c f d).Name = if f = "Model name:" then d else c.Name := by
  intro c f d; simp only [applyField]; split <;> simp_all

theorem hset_Virtualization : ∀ c f d, (applyField c f d).Virtualization = if f = "Virtualization:" then d else c.Virtualization := by
  intro c f d; simp only [applyField]; split <;> simp_all

theorem hset_Hypervisor : ∀ c f d, (applyField c f d).Hypervisor = if f = "Hypervisor vendor:" then d else c.Hypervisor := by
  intro c f d; simp only [applyField]; split <;> simp_all

theorem hset_VirtualizationType : ∀ c f d, (applyField c f d).VirtualizationType = if f = "Virtualization type:" then d else c.VirtualizationType := by
  intro c f d; simp only [applyField]; split <;> simp_all

/-- The thirteen labels the switch of populateCpuInfo recognises. -/
def cpuLabels : List String :=
  ["CPU op-mode(s):", "CPU(s):", "Thread(s) per core:", "Core(s) per socket:",
   "Socket(s):", "Vendor ID:", "CPU family:", "Model:", "Stepping:",
   "Model name:", "Virtualization:", "Hypervisor vendor:", "Virtualization type:"]

/-- A small tree in which a child repeats a label already set by its
parent: the depth-first walk visits the child after the parent. -/
def demoEntries : List LscpuEntry :=
  [.mk "CPU(s):" "4" [.mk "CPU(s):" "8" []], .mk "junk" "x" []]

/-- C3: for every input tree the CPU field walk equals a left fold over
the depth-first flattening of the tree, which lists a parent's pair before
the pairs of its children and recurses into every child at every depth;
unknown labels leave the record untouched; and for each of the thirteen
known labels the resulting field carries the data of the last-visited
occurrence of that label in depth-first order, falling back to the initial
field value when the label never occurs (last-write-wins). -/
theorem cpu_walk_last_write_wins :
    (∀ es c, populateCpuInfo es c = List.foldl applyPair c (dfsFlatten es)) ∧
    (∀ c f d, f ∉ cpuLabels → applyField c f d = c) ∧
    (∀ es c, (populateCpuInfo es c).OpMode = (lastLabel "CPU op-mode(s):" (dfsFlatten es)).getD c.OpMode) ∧
    (∀ es c, (populateCpuInfo es c).CPUs = (lastLabel "CPU(s):" (dfsFlatten es)).getD c.CPUs) ∧
    (∀ es c, (populateCpuInfo es c).Threads = (lastLabel "Thread(s) per core:" (dfsFlatten es)).getD c.Threads) ∧
    (∀ es c, (populateCpuInfo es c).Cores = (lastLabel "Core(s) per socket:" (dfsFlatten es)).getD c.Cores) ∧
    (∀ es c, (populateCpuInfo es c).Sockets = (lastLabel "Socket(s):" (dfsFlatten es)).getD c.Sockets) ∧
    (∀ es c, (populateCpuInfo es c).Vendor = (lastLabel "Vendor ID:" (dfsFlatten es)).getD c.Vendor) ∧
    (∀ es c, (populateCpuInfo es c).Family = (lastLabel "CPU family:" (dfsFlatten es)).getD c.Family) ∧
    (∀ es c, (populateCpuInfo es c).Model = (lastLabel "Model:" (dfsFlatten es)).getD c.Model) ∧
    (∀ es c, (populateCpuInfo es c).Stepping = (lastLabel "Stepping:" (dfsFlatten es)).getD c.Stepping) ∧
    (∀ es c, (populateCpuInfo es c).Name = (lastLabel "Model name:" (dfsFlatten es)).getD c.Name) ∧
    (∀ es c, (populateCpuInfo es c).Virtualization = (lastLabel "Virtualization:" (dfsFlatten es)).getD c.Virtualization) ∧
    (∀ es c, (populateCpuInfo es c).Hypervisor = (lastLabel "Hypervisor vendor:" (dfsFlatten es)).getD c.Hypervisor) ∧
    (∀ es c, (populateCpuInfo es c).VirtualizationType = (lastLabel "Virtualization type:" (dfsFlatten es)).getD c.VirtualizationType) := by
  refine ⟨populate_eq_foldl, ?_, ?_, ?_, ?_, ?_, ?_, ?_, ?_, ?_, ?_, ?_, ?_, ?_, ?_⟩
  · intro c f d hf
    simp only [applyField]
    split <;> simp_all [cpuLabels]
  · intro es c; rw [populate_eq_foldl]; exact foldl_lastLabel _ _ hset_OpMode (dfsFlatten es) c
  · intro es c; rw [populate_eq_foldl]; exact foldl_lastLabel _ _ hset_CPUs (dfsFlatten es) c
  · intro es c; rw [populate_eq_foldl]; exact foldl_lastLabel _ _ hset_Threads (dfsFlatten es) c
  · intro es c; rw [populate_eq_foldl]; exact foldl_lastLabel _ _ hset_Cores (dfsFlatten es) c
  · intro es c; rw [populate_eq_foldl]; exact foldl_lastLabel _ _ hset_Sockets (dfsFlatten es) c
  · intro es c; rw [populate_eq_foldl]; exact foldl_lastLabel _ _ hset_Vendor (dfsFlatten es) c
  · intro es c; rw [populate_eq_foldl]; exact foldl_lastLabel _ _ hset_Family (dfsFlatten es) c
  · intro es c; rw [populate_eq_foldl]; exact foldl_lastLabel _ _ hset_Model (dfsFlatten es) c
  · intro es c; rw [populate_eq_foldl]; exact foldl_lastLabel _ _ hset_Stepping (dfsFlatten es) c
  · intro es c; rw [populate_eq_foldl]; exact foldl_lastLabel _ _ hset_Name (dfsFlatten es) c
  · intro es c; rw [populate_eq_foldl]; exact foldl_lastLabel _ _ hset_Virtualization (dfsFlatten es) c
  · intro es c; rw [populate_eq_foldl]; exact foldl_lastLabel _ _ hset_Hypervisor (dfsFlatten es) c
  · intro es c; rw [populate_eq_foldl]; exact foldl_lastLabel _ _ hset_VirtualizationType (dfsFlatten es) c

/-- Witness for C3 at a concrete tree: the unknown label "zzz" is ignored,
and on demoEntries the nested repeated label resolves to the child's value
"8", the last one visited depth-first. -/
theorem cpu_walk_last_write_wins_witness :
    ("zzz" ∉ cpuLabels) ∧ applyField {} "zzz" "v" = {} ∧
      (populateCpuInfo demoEntries {}).CPUs = "8" :=
  ⟨by decide, cpu_walk_last_write_wins.2.1 {} "zzz" "v" (by decide),
    (cpu_walk_last_write_wins.2.2.2.1 demoEntries {}).trans (by decide)⟩

/-!  ## Screen mapper  -/

structure screenInfo where
  Size : String := ""
  Resolution : String := ""
  Frequency : String := ""
deriving DecidableEq

/-- One iteration of the loop of getScreens: a result containing "mm"
refreshes the remembered physical size (spaces removed); otherwise the
result must have at least two fields and a size must have been seen, and
then a record with the remembered size, the first field and the last field
is appended. -/
def screenStep (st : String × List screenInfo) (info : String) : String × List screenInfo :=
  if strContains info "mm" then (stripSpaces info, st.2)
  else
    let i := goFields info
    if i.length < 2 then st
    else if st.1 = "" then st
    else (st.1, st.2 ++ [⟨st.1, i.headD "", i.getLastD ""⟩])

/-- The loop of getScreens over the filtered results, started with no
remembered size and no records. -/
def screenRecords (results : List String) : List screenInfo :=
  (results.foldl screenStep ("", [])).2

/-- getScreens of cmd.go.  Modelled from the spec: filterAll (not under
src/) either fails, on which the mapper logs and returns no records, or
yields the sequence of captured strings, which is taken as the input
here. -/
def getScreens : Except String (List String) → List screenInfo
  | .error _ => []
  | .ok results => screenRecords results

/-- The claim's description of the same loop: a "most recent physical
size" accumulator, absent until the first size-bearing line, replaced by
each size line stripped of spaces; a mode line yields a record only when a
size is remembered and it has at least two fields. -/
def screensSpec : Option String → List String → List screenInfo
  | _, [] => []
  | acc, l :: ls =>
    if strContains l "mm" then screensSpec (some (stripSpaces l)) ls
    else
      match acc with
      | none => screensSpec none ls
      | some sz =>
        if 2 ≤ (goFields l).length then
          ⟨sz, (goFields l).headD "", (goFields l).getLastD ""⟩ :: screensSpec (some sz) ls
        else screensSpec (some sz) ls

theorem screensSpec_nil (acc : Option String) : screensSpec acc [] = [] := by
  cases acc <;> rfl

theorem screensSpec_cons_none (l : String) (ls : List String) :
    screensSpec none (l :: ls) =
      if strContains l "mm" then screensSpec (some (stripSpaces l)) ls
      else screensSpec none ls := rfl

theorem screensSpec_cons_some (sz l : String) (ls : List String) :
    screensSpec (some sz) (l :: ls) =
      if strContains l "mm" then screensSpec (some (stripSpaces l)) ls
      else if 2 ≤ (goFields l).length then
        ⟨sz, (goFields l).headD "", (goFields l).getLastD ""⟩ :: screensSpec (some sz) ls
      else screensSpec (some sz) ls := rfl

theorem subIdx_isPre {p : List Char} : ∀ {l : List Char} {i : Nat},
    subIdx p l = some i → p.isPrefixOf (l.drop i) = true := by
  intro l
  induction l with
  | nil =>
    intro i h
    rw [subIdx] at h
    split at h
    · cases h
      rename_i he
      rw [List.isEmpty_iff] at he
      subst he
      rfl
    · cases h
  | cons c cs ih =>
    intro i h
    rw [subIdx] at h
    by_cases hp : p.isPrefixOf (c :: cs) = true
    · rw [if_pos hp] at h
      cases h
      rw [List.drop_zero]
      exact hp
    · rw [if_neg hp] at h
      cases hj : subIdx p cs with
      | none => rw [hj] at h; cases h
      | some j =>
        rw [hj] at h
        cases h
        rw [List.drop_succ_cons]
        exact ih hj

/-- A string in which "mm" occurs still has its two letters m after the
spaces are removed, so the stripped size is never empty. -/
theorem strip_of_mm_ne_empty {l : String} (h : strContains l "mm" = true) :
    stripSpaces l ≠ "" := by
  intro hc
  unfold strContains at h
  cases hs : subIdx ("mm").data l.data with
  | none => rw [hs] at h; cases h
  | some i =>
    have hp := subIdx_isPre hs
    have hm : 'm' ∈ l.data := by
      refine List.mem_of_mem_drop (n := i) ?_
      cases hd : l.data.drop i with
      | nil => rw [hd] at hp; cases hp
      | cons x xs =>
        rw [hd] at hp
        have hx : x = 'm' := by
          by_contra hne
          have : ('m' == x) = false := by
            simp only [beq_eq_false_iff_ne]
            exact fun hmx => hne hmx.symm
          simp [List.isPrefixOf, this] at hp
        rw [hx]
        exact List.mem_cons_self _ _
    have h2 : 'm' ∈ (stripSpaces l).data := by
      simp only [stripSpaces]
      rw [List.mem_filter]
      exact ⟨hm, by decide⟩
    rw [hc] at h2
    simp at h2

/-- The invariant tying the "" sentinel of the Go loop to the Option
accumulator of the spec description: the sentinel is empty exactly when no
size has been seen, and a remembered size is never the empty string. -/
def accRel (s : String) (acc : Option String) : Prop :=
  match acc with
  | none => s = ""
  | some t => s = t ∧ t ≠ ""

theorem screenFold_spec : ∀ (results : List String) (s : String)
    (acc : Option String) (accL : List screenInfo), accRel s acc →
    (results.foldl screenStep (s, accL)).2 = accL ++ screensSpec acc results := by
  intro results
  induction results with
  | nil => intro s acc accL _; simp [screensSpec_nil]
  | cons l ls ih =>
    intro s acc accL hrel
    rw [List.foldl_cons]
    by_cases hmm : strContains l "mm" = true
    · have hstep : screenStep (s, accL) l = (stripSpaces l, accL) := by
        simp [screenStep, hmm]
      rw [hstep]
      cases acc with
      | none =>
        rw [screensSpec_cons_none, if_pos hmm]
        exact ih _ _ _ ⟨rfl, strip_of_mm_ne_empty hmm⟩
      | some sz =>
        rw [screensSpec_cons_some, if_pos hmm]
        exact ih _ _ _ ⟨rfl, strip_of_mm_ne_empty hmm⟩
    · by_cases hlen : (goFields l).length < 2
      · have hstep : screenStep (s, accL) l = (s, accL) := by
          simp [screenStep, hmm, hlen]
        rw [hstep]
        cases acc with
        | none =>
          rw [screensSpec_cons_none, if_neg hmm]
          exact ih _ _ _ hrel
        | some sz =>
          rw [screensSpec_cons_some, if_neg hmm, if_neg (by omega)]
          exact ih _ _ _ hrel
      · cases acc with
        | none =>
          have hs : s = "" := hrel
          have hstep : screenStep (s, accL) l = (s, accL) := by
            simp [screenStep, hmm, hlen, hs]
          rw [hstep, screensSpec_cons_none, if_neg hmm]
          exact ih _ _ _ hrel
        | some sz =>
          obtain ⟨hs, hne⟩ := hrel
          have hs2 : ¬ (s = "") := by rw [hs]; exact hne
          have hstep : screenStep (s, accL) l =
              (s, accL ++ [⟨s, (goFields l).headD "", (goFields l).getLastD ""⟩]) := by
            simp [screenStep, hmm, hlen, hs2]
          rw [hstep, screensSpec_cons_some, if_neg hmm, if_pos (by omega),
            ih _ (some sz) _ ⟨hs, hne⟩, hs]
          simp

/-- C5: for every sequence of filtered display lines the screen mapper
threads a most-recent-physical-size accumulator: a size-bearing line
(containing "mm") replaces the accumulator with its text stripped of
spaces; a later mode line with at least two whitespace-separated fields
yields a record with the current accumulator as Size, its first token as
Resolution and its last token as Frequency; mode lines before any size
line, or with fewer than two fields, are skipped.  Concretely, a filtered
size capture followed by a filtered mode capture yields that record, and a
mode capture with no preceding size capture yields nothing. -/
theorem screens_accumulator_spec :
    (∀ results, screenRecords results = screensSpec none results) ∧
    screenRecords ["1920mm x 1080mm", "1920x1080 60.00"] =
      [⟨"1920mmx1080mm", "1920x1080", "60.00"⟩] ∧
    screenRecords ["800x600 60.00"] = [] := by
  refine ⟨?_, by decide, by decide⟩
  intro results
  simpa using screenFold_spec results "" none [] rfl

theorem screenFold_size_ne : ∀ (results : List String) (s : String) (accL : List screenInfo),
    (∀ r ∈ accL, r.Size ≠ "") → ∀ r ∈ (results.foldl screenStep (s, accL)).2, r.Size ≠ "" := by
  intro results
  induction results with
  | nil => intro s accL hacc; simpa using hacc
  | cons l ls ih =>
    intro s accL hacc
    rw [List.foldl_cons]
    by_cases hmm : strContains l "mm" = true
    · have hstep : screenStep (s, accL) l = (stripSpaces l, accL) := by
        simp [screenStep, hmm]
      rw [hstep]; exact ih _ _ hacc
    · by_cases hlen : (goFields l).length < 2
      · have hstep : screenStep (s, accL) l = (s, accL) := by
          simp [screenStep, hmm, hlen]
        rw [hstep]; exact ih _ _ hacc
      · by_cases hse : s = ""
        · have hstep : screenStep (s, accL) l = (s, accL) := by
            simp [screenStep, hmm, hlen, hse]
          rw [hstep]; exact ih _ _ hacc
        · have hstep : screenStep (s, accL) l =
              (s, accL ++ [⟨s, (goFields l).headD "", (goFields l).getLastD ""⟩]) := by
            simp [screenStep, hmm, hlen, hse]
          rw [hstep]
          refine ih _ _ ?_
          intro r hr
          rcases List.mem_append.mp hr with h | h
          · exact hacc r h
          · simp only [List.mem_singleton] at h
            rw [h]
            exact hse

/-- C10: every record in the list getScreens returns has a non-empty Size
field: a record is appended only once the last-size accumulator holds a
value set by some earlier size-bearing line. -/
theorem screens_size_nonempty : ∀ (results : List String) (r : screenInfo),
    r ∈ screenRecords results → r.Size ≠ "" := by
  intro results r hr
  exact screenFold_size_ne results "" [] (by simp) r hr

/-- Witness for C10: on a concrete size line followed by a mode line, the
produced record is in the output and its Size is non-empty. -/
theorem screens_size_nonempty_witness :
    ((⟨"10mm", "640x480", "60"⟩ : screenInfo) ∈ screenRecords ["10mm", "640x480 60"]) ∧
      (⟨"10mm", "640x480", "60"⟩ : screenInfo).Size ≠ "" :=
  ⟨by decide, screens_size_nonempty ["10mm", "640x480 60"] _ (by decide)⟩

/-!  ## Partition mapper  -/

/-- The capture a line contributes under the partition filter pattern of
cmd.go: the line must start with "/dev/" followed by a non-whitespace run,
at least one space and an optional second non-whitespace token; the
capture is device name, spaces and size token together.  The greedy
quantifiers make each run maximal. -/
def partCapture (line : String) : Option String :=
  if ("/dev/").data.isPrefixOf line.data then
    let rest := line.data.drop 5
    let dev := rest.takeWhile (fun c => !(isSpaceRe c))
    let gap := (rest.drop dev.length).takeWhile (fun c => c == ' ')
    if dev.isEmpty || gap.isEmpty then none
    else
      let tok := (rest.drop (dev.length + gap.length)).takeWhile (fun c => !(isSpaceRe c))
      some (String.mk (dev ++ gap ++ tok))
  else none

/-- Modelled from the spec: convKBToGB (not under src/) integer-parses the
size token and divides the kilobyte count by 1,048,576 to obtain
gigabytes; the float64 result is modelled as an exact rational. -/
def convKBToGB (s : String) : Option ℚ :=
  (goAtoi s).map (fun v : Int => (v : ℚ) / 1048576)

/-- The loop of getPartitions over the filtered results: skip captures
whose device name starts with "loop", require exactly two fields, parse
and convert the size, drop (log) anything that fails. -/
def partRecords : List String → List ℚ
  | [] => []
  | s :: rest =>
    if strStarts s "loop" then partRecords rest
    else
      match goFields s with
      | [_, szTok] =>
        match convKBToGB szTok with
        | some v => v :: partRecords rest
        | none => partRecords rest
      | _ => partRecords rest

/-- getPartitions of cmd.go with the command stream and the filterAll
engine (not under src/) abstracted into the Except argument. -/
def getPartitions : Except String (List String) → List ℚ
  | .error _ => []
  | .ok ls => partRecords (ls.filterMap partCapture)

/-- The per-capture step of the loop as a partial function. -/
def partElem (s : String) : Option ℚ :=
  if strStarts s "loop" then none
  else
    match goFields s with
    | [_, szTok] => convKBToGB szTok
    | _ => none

/-- The claim's per-line description: take the capture (the text after
"/dev/" up to its second token), exclude device names starting with
"loop", require exactly two whitespace-separated fields, integer-parse the
size and divide by 1,048,576. -/
def partSpecLine (line : String) : Option ℚ :=
  match partCapture line with
  | none => none
  | some entry =>
    if strStarts entry "loop" then none
    else if (goFields entry).length = 2 then
      (goAtoi ((goFields entry).getD 1 "")).map (fun v : Int => (v : ℚ) / 1048576)
    else none

theorem partRecords_eq_filterMap : ∀ rs : List String,
    partRecords rs = rs.filterMap partElem := by
  intro rs
  induction rs with
  | nil => rfl
  | cons s rest ih =>
    rw [partRecords, List.filterMap_cons]
    by_cases hl : strStarts s "loop" = true
    · simp only [if_pos hl, partElem, if_pos hl]
      exact ih
    · simp only [if_neg hl, partElem, if_neg hl]
      cases hf : goFields s with
      | nil => simpa using ih
      | cons a t =>
        cases t with
        | nil => simpa using ih
        | cons b t2 =>
          cases t2 with
          | nil =>
            cases hv : convKBToGB b with
            | none => simpa [hv] using ih
            | some v => simpa [hv] using ih
          | cons c t3 => simpa using ih

theorem partElem_spec (l : String) : (partCapture l).bind partElem = partSpecLine l := by
  cases hc : partCapture l with
  | none => simp [partSpecLine, hc]
  | some e =>
    rw [partSpecLine, hc]
    simp only [Option.some_bind]
    rw [partElem]
    by_cases hl : strStarts e "loop" = true
    · simp [hl]
    · simp only [if_neg hl]
      cases hf : goFields e with
      | nil => simp [hf]
      | cons a t =>
        cases t with
        | nil => simp [hf]
        | cons b t2 =>
          cases t2 with
          | nil => simp [hf, convKBToGB]
          | cons c t3 => simp [hf]

theorem partRecords_single (s dev szTok : String) (v : ℚ)
    (h1 : strStarts s "loop" = false) (h2 : goFields s = [dev, szTok])
    (h3 : convKBToGB szTok = some v) :
    partRecords [s] = [v] := by
  simp only [partRecords, h1, h2, h3]
  simp

/-- C4: the partition loop over the filtered disk-usage lines equals the
claim's per-line pipeline: capture the text after "/dev/", exclude
captures starting with "loop", require exactly two whitespace-separated
fields, integer-parse the size token and divide the kilobyte count by
1,048,576.  Concretely, the sda1 line yields exactly 1 GB, the loop0 line
is excluded, and a non-numeric size is dropped. -/
theorem partitions_pipeline_spec :
    (∀ ls, getPartitions (.ok ls) = ls.filterMap partSpecLine) ∧
    getPartitions (.ok ["/dev/sda1        1048576  ..."]) = [1] ∧
    getPartitions (.ok ["/dev/loop0   512  ..."]) = [] ∧
    getPartitions (.ok ["/dev/sdb1  notanumber"]) = [] := by
  refine ⟨?_, ?_, by decide, by decide⟩
  · intro ls
    show partRecords (ls.filterMap partCapture) = ls.filterMap partSpecLine
    rw [partRecords_eq_filterMap, List.filterMap_filterMap]
    exact List.filterMap_congr (fun l _ => partElem_spec l)
  · have h0 : ["/dev/sda1        1048576  ..."].filterMap partCapture =
        ["sda1        1048576"] := by decide
    have h3 : convKBToGB "1048576" = some (((1048576 : Int) : ℚ) / 1048576) := by
      have ha : goAtoi "1048576" = some 1048576 := by decide
      rw [convKBToGB, ha]
      rfl
    show partRecords (["/dev/sda1        1048576  ..."].filterMap partCapture) = [1]
    rw [h0, partRecords_single _ "sda1" "1048576" _ (by decide) (by decide) h3]
    norm_num

/-!  ## GPU claims  -/

theorem firstSome_mem {α : Type} : ∀ {l : List (Option α)} {x : α},
    firstSome l = some x → some x ∈ l := by
  intro l
  induction l with
  | nil => intro x h; cases h
  | cons o os ih =>
    intro x h
    cases o with
    | some y =>
      rw [firstSome] at h
      rw [h]
      exact List.mem_cons_self _ _
    | none =>
      rw [firstSome] at h
      exact List.mem_cons_of_mem _ (ih h)

theorem gpuTryAt_shape {t cl : List Char} (h : gpuTryAt t = some cl) :
    ∃ v m, cl = v ++ ':' :: m ∧ ∀ c ∈ v, isAlnumGo c = true := by
  simp only [gpuTryAt] at h
  split at h
  · rename_i rest heq
    split at h
    · cases h
    · split at h
      · cases h
        exact ⟨_, _, rfl, fun c hc => List.mem_takeWhile_imp hc⟩
      · split at h
        · cases h
          exact ⟨_, _, rfl, fun c hc => List.mem_takeWhile_imp hc⟩
        · cases h
  · cases h

theorem gpuCapture_shape {line s : String} (h : gpuCapture line = some s) :
    ∃ v m, s.data = v ++ ':' :: m ∧ ∀ c ∈ v, isAlnumGo c = true := by
  rw [gpuCapture] at h
  cases hf : firstSome ((subIdxAll gpuLit line.data).reverse.map
      (fun i => gpuTryAt (line.data.drop (i + gpuLit.length)))) with
  | none => rw [hf] at h; cases h
  | some cl =>
    rw [hf] at h
    cases h
    have hmem := firstSome_mem hf
    rcases List.mem_map.mp hmem with ⟨i, _, hi⟩
    rcases gpuTryAt_shape hi with ⟨v, m, hcl, hv⟩
    exact ⟨v, m, hcl, hv⟩

theorem subIdx_colon : ∀ (v m : List Char), (∀ c ∈ v, (c == ':') = false) →
    subIdx [':'] (v ++ ':' :: m) = some v.length := by
  intro v
  induction v with
  | nil =>
    intro m _
    simp [subIdx, List.isPrefixOf]
  | cons c v ih =>
    intro m hv
    have hc : (c == ':') = false := hv c (List.mem_cons_self _ _)
    have hc2 : (':' == c) = false := by
      rw [beq_eq_false_iff_ne] at hc ⊢
      exact fun he => hc he.symm
    rw [List.cons_append, subIdx,
      if_neg (by simp [List.isPrefixOf, hc2]),
      ih m (fun d hd => hv d (List.mem_cons_of_mem _ hd))]
    rfl

theorem goSplit_of_colon {s : String} {v m : List Char}
    (hd : s.data = v ++ ':' :: m) (hv : ∀ c ∈ v, isAlnumGo c = true) :
    (goSplitN2Colon s).length = 2 ∧ strContains s ":" = true := by
  have hvc : ∀ c ∈ v, (c == ':') = false := by
    intro c hc
    have halnum := hv c hc
    rw [beq_eq_false_iff_ne]
    intro he
    rw [he] at halnum
    exact absurd halnum (by decide)
  have hidx : subIdx [':'] s.data = some v.length := by
    rw [hd]; exact subIdx_colon v m hvc
  constructor
  · rw [goSplitN2Colon, hidx]
    rfl
  · have hpat : (":").data = [':'] := rfl
    rw [strContains, hpat, hidx]
    rfl

theorem gpuRecords_len : ∀ rs : List String,
    (∀ s ∈ rs, (goSplitN2Colon s).length = 2) →
    (gpuRecords rs).length = rs.length := by
  intro rs
  induction rs with
  | nil => intro _; rfl
  | cons s rest ih =>
    intro h
    have h2 := h s (List.mem_cons_self _ _)
    have htail := ih (fun x hx => h x (List.mem_cons_of_mem _ hx))
    cases hsp : goSplitN2Colon s with
    | nil => rw [hsp] at h2; simp at h2
    | cons a t =>
      cases t with
      | nil => rw [hsp] at h2; simp at h2
      | cons b t2 =>
        cases t2 with
        | nil =>
          simp only [gpuRecords, hsp, List.length_cons, htail]
        | cons c t3 => rw [hsp] at h2; simp at h2

/-- C9: the drop branch of the GPU loop is unreachable for filtered input:
every string the capture group of the GPU pattern produces contains a
colon, so SplitN on ":" with limit 2 yields exactly two parts and every
filtered result becomes a GPU record (the output has one record per
capture). -/
theorem gpu_drop_branch_unreachable :
    ∀ lines : List String,
      (∀ s ∈ lines.filterMap gpuCapture,
        strContains s ":" = true ∧ (goSplitN2Colon s).length = 2) ∧
      (getGPU (.ok lines)).length = (lines.filterMap gpuCapture).length := by
  intro lines
  have hall : ∀ s ∈ lines.filterMap gpuCapture,
      strContains s ":" = true ∧ (goSplitN2Colon s).length = 2 := by
    intro s hs
    rcases List.mem_filterMap.mp hs with ⟨l, _, hc⟩
    rcases gpuCapture_shape hc with ⟨v, m, hd, hv⟩
    have hsp := goSplit_of_colon hd hv
    exact ⟨hsp.2, hsp.1⟩
  exact ⟨hall, gpuRecords_len _ (fun s hs => (hall s hs).2)⟩

/-- Witness for C9 at the concrete PCI line of the spec: the capture is
returned as a record (no drop) and contains a colon. -/
theorem gpu_drop_branch_unreachable_witness :
    (getGPU (.ok ["01:00.0 0300: 10de:1234 (rev a1)"])).length =
      (["01:00.0 0300: 10de:1234 (rev a1)"].filterMap gpuCapture).length ∧
      strContains "10de:1234" ":" = true :=
  ⟨(gpu_drop_branch_unreachable ["01:00.0 0300: 10de:1234 (rev a1)"]).2,
    ((gpu_drop_branch_unreachable ["01:00.0 0300: 10de:1234 (rev a1)"]).1
      "10de:1234" (by decide)).1⟩

/-- C6 counterexample: the claim offers "0300: noColon" as a result that
does not split into exactly two parts and is dropped; in fact SplitN on
the first colon gives exactly the two parts "0300" and " noColon", and the
GPU loop returns it as a record instead of dropping it. -/
theorem gpu_noColon_counterexample :
    goSplitN2Colon "0300: noColon" = ["0300", " noColon"] ∧
      gpuRecords ["0300: noColon"] = [{ Vendor := "0300", Model := " noColon" }] :=
  ⟨by decide, by decide⟩

/-- C6 amended: the GPU loop splits every filtered result on the first
colon into a vendor part and a model part and keeps exactly-two-part
splits, so the spec line yields Vendor "10de", Model "1234"; a result
without any colon (for instance "noColon") does not split into two parts
and is dropped, never returned, while "0300: noColon" does split (into
"0300" and " noColon") and is returned. -/
theorem gpu_split_first_colon :
    (∀ rs, gpuRecords rs = rs.filterMap splitVendorModel) ∧
    gpuCapture "01:00.0 0300: 10de:1234 (rev a1)" = some "10de:1234" ∧
    getGPU (.ok ["01:00.0 0300: 10de:1234 (rev a1)"]) =
      [{ Vendor := "10de", Model := "1234" }] ∧
    gpuRecords ["noColon"] = [] := by
  refine ⟨?_, by decide, by decide, by decide⟩
  intro rs
  induction rs with
  | nil => rfl
  | cons s rest ih =>
    cases hsp : goSplitN2Colon s with
    | nil => simp [gpuRecords, List.filterMap_cons, splitVendorModel, hsp, ih]
    | cons a t =>
      cases t with
      | nil => simp [gpuRecords, List.filterMap_cons, splitVendorModel, hsp, ih]
      | cons b t2 =>
        cases t2 with
        | nil => simp [gpuRecords, List.filterMap_cons, splitVendorModel, hsp, ih]
        | cons c t3 => simp [gpuRecords, List.filterMap_cons, splitVendorModel, hsp, ih]

/-!  ## Architecture mapper  -/

/-- strings.TrimSpace: drop whitespace from both ends. -/
def trimSpace (s : String) : String :=
  String.mk (((s.data.dropWhile isSpaceFields).reverse.dropWhile isSpaceFields).reverse)

/-- getArch of cmd.go: the combined output trimmed, the empty string when
running the command failed. -/
def getArch : Except String String → String
  | .error _ => ""
  | .ok b => trimSpace b

/-!  ## Hardware capability mapper  -/

def supportedLit : List Char := ("supported, searched").data

/-- The capture of one line under the supported-level pattern of getHwCap:
the greedy leading group takes the longest prefix that is followed by a
space and, somewhere later in the line, the literal "supported,
searched". -/
def hwcapMatch (l : String) : Option String :=
  match (subIdxAll supportedLit l.data).getLast? with
  | none => none
  | some q =>
    match ((List.range q).filter (fun i => l.data.getD i 'x' == ' ')).getLast? with
    | none => none
    | some i => some (String.mk (l.data.take i))

/-- filterFirst of the supported-level pattern over a list of lines.
Modelled from the spec: filterFirst (not under src/) returns the first
line's capture, or a not-found outcome when no line matches. -/
def filterFirstSupported (ls : List String) : Option String :=
  firstSome (ls.map hwcapMatch)

def hwMarker : String := "Subdirectories of glibc-hwcaps"

def legacyMarker : String := "Legacy HWCAP subdirectories"

/-- The truncation getHwCap performs: cut the buffer at the first
occurrence of the legacy marker when one exists. -/
def legacyTrunc (out : String) : String :=
  match subIdx legacyMarker.data out.data with
  | some li => String.mk (out.data.take li)
  | none => out

/-- getHwCap of cmd.go: no configured command (or a read failure) gives
the empty string; output without the glibc-hwcaps marker gives the empty
string; otherwise the buffer is truncated at the legacy marker when
present and searched for a supported-level line, with "-" when none
matches. -/
def getHwCap : Option (Except String String) → String
  | none => ""
  | some (.error _) => ""
  | some (.ok out) =>
    match subIdx hwMarker.data out.data with
    | none => ""
    | some _ =>
      match filterFirstSupported (goLines (legacyTrunc out)) with
      | some s => s
      | none => "-"

/-- Definition following the words of claim C2: the buffer would be
truncated at the legacy marker only when that marker occurs after the
glibc-hwcaps marker. -/
def getHwCapClaimC2 : Option (Except String String) → String
  | none => ""
  | some (.error _) => ""
  | some (.ok out) =>
    match subIdx hwMarker.data out.data with
    | none => ""
    | some hi =>
      let buf : String :=
        match subIdx legacyMarker.data out.data with
        | some li => if hi < li then String.mk (out.data.take li) else out
        | none => out
      match filterFirstSupported (goLines buf) with
      | some s => s
      | none => "-"

/-- Output in which the legacy marker precedes the glibc-hwcaps marker and
a supported-level line follows. -/
def hwEx : String :=
  "Legacy HWCAP subdirectories\nSubdirectories of glibc-hwcaps\nx foo supported, searched"

theorem firstSome_of_all_none {α : Type} : ∀ {l : List (Option α)},
    (∀ o ∈ l, o = none) → firstSome l = none := by
  intro l
  induction l with
  | nil => intro _; rfl
  | cons o os ih =>
    intro h
    have ho := h o (List.mem_cons_self _ _)
    rw [ho, firstSome]
    exact ih (fun x hx => h x (List.mem_cons_of_mem _ hx))

/-- C7: getHwCap returns the empty string when no capability command is
configured or when the output lacks the marker "Subdirectories of
glibc-hwcaps"; it returns the sentinel "-" when the marker is present but
no line of the (legacy-truncated) buffer matches the supported-level
pattern; and the two outcomes are distinct strings. -/
theorem hwcap_outcomes :
    getHwCap none = "" ∧
    (∀ out : String, subIdx hwMarker.data out.data = none →
      getHwCap (some (.ok out)) = "") ∧
    (∀ out : String, (subIdx hwMarker.data out.data).isSome = true →
      (∀ l ∈ goLines (legacyTrunc out), hwcapMatch l = none) →
      getHwCap (some (.ok out)) = "-") ∧
    ("" : String) ≠ "-" := by
  refine ⟨rfl, ?_, ?_, by decide⟩
  · intro out h
    simp only [getHwCap, h]
  · intro out h1 h2
    cases heq : subIdx hwMarker.data out.data with
    | none => rw [heq] at h1; cases h1
    | some j =>
      have hnone : filterFirstSupported (goLines (legacyTrunc out)) = none := by
        rw [filterFirstSupported]
        refine firstSome_of_all_none ?_
        intro o ho
        rcases List.mem_map.mp ho with ⟨l, hl, hlo⟩
        rw [← hlo]
        exact h2 l hl
      simp only [getHwCap, heq, hnone]

/-- Witness for C7: no configured command, output without the marker, and
output with the marker but no supported line. -/
theorem hwcap_outcomes_witness :
    getHwCap none = "" ∧
    getHwCap (some (.ok "nothing here")) = "" ∧
    getHwCap (some (.ok "Subdirectories of glibc-hwcaps\nzzz")) = "-" :=
  ⟨hwcap_outcomes.1,
    hwcap_outcomes.2.1 "nothing here" (by decide),
    hwcap_outcomes.2.2.1 "Subdirectories of glibc-hwcaps\nzzz" (by decide) (by decide)⟩

/-- C2 counterexample: on output where the legacy marker precedes the
glibc-hwcaps marker, the code still truncates at the legacy marker (so the
whole buffer, supported line included, is discarded and the result is
"-"), while the claim's reading, which truncates only when the legacy
marker comes after the glibc-hwcaps marker, would find "x foo". -/
theorem hwcap_truncation_counterexample :
    getHwCap (some (.ok hwEx)) = "-" ∧
      getHwCapClaimC2 (some (.ok hwEx)) = "x foo" :=
  ⟨by decide, by decide⟩

/-- C2 amended: whenever the legacy marker occurs anywhere in the output —
also before the glibc-hwcaps marker — getHwCap truncates the buffer at the
legacy marker's first occurrence, and only that prefix is ever searched
for the supported-level line; the discarded portion is never searched. -/
theorem hwcap_legacy_truncation :
    ∀ (out : String) (li : Nat), (subIdx hwMarker.data out.data).isSome = true →
      subIdx legacyMarker.data out.data = some li →
      getHwCap (some (.ok out)) =
        (match filterFirstSupported (goLines (String.mk (out.data.take li))) with
          | some s => s
          | none => "-") := by
  intro out li h1 h2
  cases heq : subIdx hwMarker.data out.data with
  | none => rw [heq] at h1; cases h1
  | some j =>
    simp only [getHwCap, heq, legacyTrunc, h2]

/-- Witness for C2 (amended) at hwEx, whose legacy marker sits at index 0,
before the glibc-hwcaps marker. -/
theorem hwcap_legacy_truncation_witness :
    (subIdx hwMarker.data hwEx.data).isSome = true ∧
      subIdx legacyMarker.data hwEx.data = some 0 ∧
      getHwCap (some (.ok hwEx)) =
        (match filterFirstSupported (goLines (String.mk (hwEx.data.take 0))) with
          | some s => s
          | none => "-") :=
  ⟨by decide, by decide, hwcap_legacy_truncation hwEx 0 (by decide) (by decide)⟩

/-- C1: no mapper aborts the collection: every mapper is a total function
of its input, and on a failed parse, failed filter, failed command or
missing command each returns its zero value — the zero-value CPU record
for getCPU, the empty list for the GPU, screen and partition mappers, and
the empty string for the architecture and capability mappers. -/
theorem mappers_degrade_on_failure :
    ∀ e : String,
      getCPU (Except.error e) = {} ∧
      getGPU (Except.error e) = [] ∧
      getScreens (Except.error e) = [] ∧
      getPartitions (Except.error e) = [] ∧
      getArch (Except.error e) = "" ∧
      getHwCap (some (Except.error e)) = "" ∧
      getHwCap none = "" :=
  fun _ => ⟨rfl, rfl, rfl, rfl, rfl, rfl, rfl⟩
